import Mathlib

/-!
Verification development for the deltaboard repository.

The repository's visible sources are a notebook defining `ExampleTask`
(a horizontal federated-learning task recipe: preprocessing, training,
validation, parameter selection and the `FedAvg` algorithm configuration)
and a deployment bootstrap script.  The round coordinator and its
aggregation engine described by the specification are not part of the
visible sources; the definitions below that embed them are modelled
from the specification text and are marked as such in their doc
comments.  The `ExampleTask` definitions are embedded from the notebook
source, with real-number arithmetic modelled over `ℚ`.
-/

/-- Parameter vectors: one rational per parameter tensor position. -/
abbrev Params := List ℚ

/-- Modelled from the spec: a Contribution is a single node's update for a
round, with node identity, round number, parameter values, declared sample
count (used as aggregation weight, possibly absent) and optional validation
metrics. -/
structure Contribution where
  node : Nat
  roundNum : Nat
  params : Params
  sampleCount : Option Nat
  metrics : Option (List (String × ℚ))
  deriving Repr, DecidableEq

/-- Modelled from the spec: the evolving global model state, with current
parameter values and a version equal to the last completed round number. -/
structure GlobalModelState where
  params : Params
  version : Nat
  deriving Repr, DecidableEq

/-- Modelled from the spec: aggregator error taxonomy — invoked below its
floor, or malformed/incompatible contribution shapes. -/
inductive AggError where
  | insufficientContributions
  | aggregationFailure
  deriving Repr, DecidableEq

/-- Modelled from the spec: the aggregation weight of a contribution is its
declared sample count; an absent sample count contributes weight 0. -/
def weightOf (c : Contribution) : Nat :=
  c.sampleCount.getD 0

/-- Modelled from the spec: total declared weight of a contribution list. -/
def totalWeight (cs : List Contribution) : Nat :=
  (cs.map weightOf).sum

/-- Modelled from the spec: the effective weight of a contribution — the
declared sample count, falling back to uniform weighting (weight 1 for
every contribution) when sample counts are absent or all zero. -/
def effWeight (cs : List Contribution) (c : Contribution) : ℚ :=
  if totalWeight cs = 0 then 1 else (weightOf c : ℚ)

/-- Modelled from the spec: the numerator of the weighted average at one
parameter tensor position. -/
def weightedSumAt (cs : List Contribution) (j : Nat) : ℚ :=
  (cs.map (fun c => effWeight cs c * c.params.getD j 0)).sum

/-- Modelled from the spec: the denominator of the weighted average — the
sum of the effective weights of the contributions present. -/
def denom (cs : List Contribution) : ℚ :=
  (cs.map (fun c => effWeight cs c)).sum

/-- Modelled from the spec: the default weighted-averaging strategy — at
each parameter tensor position, the weighted sum of the contributions
divided by the sum of the weights. -/
def weightedAverage (cs : List Contribution) (len : Nat) : Params :=
  (List.range len).map (fun j => weightedSumAt cs j / denom cs)

/-- Modelled from the spec: a contribution's parameter shape is compatible
when its length matches the current global parameter vector's length. -/
def shapeOk (g : GlobalModelState) (c : Contribution) : Bool :=
  c.params.length == g.params.length

/-- Modelled from the spec: `aggregate(currentGlobalState, contributions[])`
fails with `InsufficientContributions` when fewer contributions than the
strategy's floor are present, fails with `AggregationFailure` on
incompatible contribution shapes, and otherwise returns the new global
state computed by weighted averaging, with the version advanced by one. -/
def aggregate (floor : Nat) (g : GlobalModelState) (cs : List Contribution) :
    Except AggError GlobalModelState :=
  if cs.length < floor then
    .error .insufficientContributions
  else if cs.all (shapeOk g) then
    .ok ⟨weightedAverage cs g.params.length, g.version + 1⟩
  else
    .error .aggregationFailure

lemma getD_map_range (n j : Nat) (f : Nat → ℚ) (h : j < n) :
    ((List.range n).map f).getD j 0 = f j := by
  simp [List.getD_eq_getElem?_getD, List.getElem?_map, List.getElem?_range, h]

lemma weightedAverage_getD (cs : List Contribution) (len j : Nat) (h : j < len) :
    (weightedAverage cs len).getD j 0 = weightedSumAt cs j / denom cs := by
  unfold weightedAverage
  exact getD_map_range len j _ h

lemma sum_map_one (cs : List Contribution) :
    (cs.map (fun _ => (1 : ℚ))).sum = (cs.length : ℚ) := by
  induction cs with
  | nil => simp
  | cons c t ih => simp [ih]; ring

lemma denom_of_totalWeight_ne (cs : List Contribution) (h : totalWeight cs ≠ 0) :
    denom cs = (totalWeight cs : ℚ) := by
  unfold denom
  simp only [effWeight, h, if_false]
  rw [totalWeight, Nat.cast_list_sum, List.map_map]
  rfl

lemma denom_of_totalWeight_eq (cs : List Contribution) (h : totalWeight cs = 0) :
    denom cs = (cs.length : ℚ) := by
  unfold denom
  simp only [effWeight, h, if_true]
  exact sum_map_one cs

lemma totalWeight_ne_of_pos (cs : List Contribution) (hne : cs ≠ [])
    (hpos : ∀ c ∈ cs, 0 < weightOf c) : totalWeight cs ≠ 0 := by
  intro h
  rw [totalWeight, List.sum_eq_zero_iff] at h
  match cs, hne with
  | c :: t, _ =>
    have h1 := h (weightOf c) (by simp)
    have h2 := hpos c (by simp)
    omega

/-- Claim C1: for every global state and every non-empty contribution list
with positive declared sample counts, the weighted-average aggregate equals,
at each parameter tensor position, the sum of weight times contribution
divided by the sum of weights; when sample counts are absent or all zero it
is the uniform average; for exactly two contributions of equal weight it is
the elementwise mean; a single present contribution is returned unchanged —
a node that submitted nothing adds nothing to numerator or denominator; and
with compatible shapes and at least the floor present, `aggregate` returns
exactly this weighted average. -/
theorem c1_weighted_average (g : GlobalModelState) (cs : List Contribution)
    (hne : cs ≠ []) :
    ((∀ c ∈ cs, 0 < weightOf c) → ∀ j < g.params.length,
        (weightedAverage cs g.params.length).getD j 0 =
          (cs.map (fun c => (weightOf c : ℚ) * c.params.getD j 0)).sum /
            (totalWeight cs : ℚ)) ∧
    (totalWeight cs = 0 → ∀ j < g.params.length,
        (weightedAverage cs g.params.length).getD j 0 =
          (cs.map (fun c => c.params.getD j 0)).sum / (cs.length : ℚ)) ∧
    (∀ c₁ c₂, cs = [c₁, c₂] → weightOf c₁ = weightOf c₂ → ∀ j < g.params.length,
        (weightedAverage cs g.params.length).getD j 0 =
          (c₁.params.getD j 0 + c₂.params.getD j 0) / 2) ∧
    (∀ c, cs = [c] → ∀ j < g.params.length,
        (weightedAverage cs g.params.length).getD j 0 = c.params.getD j 0) ∧
    ((∀ c ∈ cs, c.params.length = g.params.length) →
        aggregate cs.length g cs =
          .ok ⟨weightedAverage cs g.params.length, g.version + 1⟩) := by
  refine ⟨?_, ?_, ?_, ?_, ?_⟩
  · intro hpos j hj
    have hw := totalWeight_ne_of_pos cs hne hpos
    rw [weightedAverage_getD cs _ j hj, denom_of_totalWeight_ne cs hw]
    unfold weightedSumAt
    simp only [effWeight, hw, if_false]
  · intro h0 j hj
    rw [weightedAverage_getD cs _ j hj, denom_of_totalWeight_eq cs h0]
    unfold weightedSumAt
    simp only [effWeight, h0, if_true, one_mul]
  · intro c₁ c₂ hcs hw j hj
    subst hcs
    rw [weightedAverage_getD _ _ j hj]
    by_cases h0 : totalWeight [c₁, c₂] = 0
    · rw [denom_of_totalWeight_eq _ h0]
      unfold weightedSumAt
      simp only [effWeight, h0, if_true, one_mul, List.map_cons, List.map_nil,
        List.sum_cons, List.sum_nil, List.length_cons, List.length_nil]
      push_cast
      ring
    · have hwq : (weightOf c₁ : ℚ) ≠ 0 := by
        have : totalWeight [c₁, c₂] = weightOf c₁ + weightOf c₂ := by
          simp [totalWeight]
        rw [this, ← hw] at h0
        exact_mod_cast fun h => h0 (by omega)
      rw [denom_of_totalWeight_ne _ h0]
      unfold weightedSumAt
      simp only [effWeight, h0, if_false, List.map_cons, List.map_nil,
        List.sum_cons, List.sum_nil]
      have htw : totalWeight [c₁, c₂] = weightOf c₁ + weightOf c₂ := by
        simp [totalWeight]
      rw [htw, ← hw]
      push_cast
      field_simp
      ring
  · intro c hcs j hj
    subst hcs
    rw [weightedAverage_getD _ _ j hj]
    by_cases h0 : totalWeight [c] = 0
    · rw [denom_of_totalWeight_eq _ h0]
      unfold weightedSumAt
      simp [effWeight, h0]
    · have htw : totalWeight [c] = weightOf c := by simp [totalWeight]
      have hw0 : weightOf c ≠ 0 := fun h => h0 (htw.trans h)
      have hwq : (weightOf c : ℚ) ≠ 0 := by exact_mod_cast hw0
      rw [denom_of_totalWeight_ne _ h0, htw]
      unfold weightedSumAt
      simp only [effWeight, h0, if_false, List.map_cons, List.map_nil,
        List.sum_cons, List.sum_nil, add_zero]
      field_simp
  · intro hshape
    unfold aggregate
    have hall : cs.all (shapeOk g) = true := by
      rw [List.all_eq_true]
      intro c hc
      simp [shapeOk, hshape c hc]
    simp [hall]

/-- Sample contribution used by concrete witnesses (node 1, weight 3). -/
def cA : Contribution :=
  ⟨1, 1, [2], some 3, none⟩

/-- Sample contribution used by concrete witnesses (node 2, weight 3). -/
def cB : Contribution :=
  ⟨2, 1, [4], some 3, none⟩

/-- Sample global state used by concrete witnesses. -/
def gEx : GlobalModelState :=
  ⟨[0], 0⟩

theorem c1_weighted_average_witness :
    ([cA, cB] : List Contribution) ≠ [] ∧
    (weightedAverage [cA, cB] gEx.params.length).getD 0 0 = (2 + 4) / 2 := by
  constructor
  · decide
  · have h := (c1_weighted_average gEx [cA, cB] (by decide)).2.2.1 cA cB rfl
      (by decide) 0 (by decide)
    rw [h]
    norm_num [cA, cB]

lemma totalWeight_perm (cs cs' : List Contribution) (h : cs.Perm cs') :
    totalWeight cs = totalWeight cs' :=
  (h.map weightOf).sum_eq

lemma effWeight_perm (cs cs' : List Contribution) (h : cs.Perm cs') :
    effWeight cs = effWeight cs' := by
  funext c
  unfold effWeight
  rw [totalWeight_perm cs cs' h]

lemma weightedSumAt_perm (cs cs' : List Contribution) (h : cs.Perm cs')
    (j : Nat) : weightedSumAt cs j = weightedSumAt cs' j := by
  unfold weightedSumAt
  rw [effWeight_perm cs cs' h]
  exact (h.map _).sum_eq

lemma denom_perm (cs cs' : List Contribution) (h : cs.Perm cs') :
    denom cs = denom cs' := by
  unfold denom
  rw [effWeight_perm cs cs' h]
  exact (h.map _).sum_eq

lemma all_perm (p : Contribution → Bool) (cs cs' : List Contribution)
    (h : cs.Perm cs') : cs.all p = cs'.all p := by
  rw [Bool.eq_iff_iff]
  simp only [List.all_eq_true]
  constructor
  · intro ha x hx
    exact ha x (h.mem_iff.mpr hx)
  · intro ha x hx
    exact ha x (h.mem_iff.mp hx)

/-- Claim C5: the aggregation strategy is a deterministic function of the
multiset of contributions — aggregating any arrival-order permutation of the
same contributions yields exactly the same new global state. -/
theorem c5_order_insensitive (floor : Nat) (g : GlobalModelState)
    (cs cs' : List Contribution) (h : cs.Perm cs') :
    aggregate floor g cs = aggregate floor g cs' := by
  have hwa : weightedAverage cs g.params.length =
      weightedAverage cs' g.params.length := by
    unfold weightedAverage
    congr 1
    funext j
    rw [weightedSumAt_perm cs cs' h j, denom_perm cs cs' h]
  unfold aggregate
  rw [h.length_eq, all_perm (shapeOk g) cs cs' h, hwa]

theorem c5_order_insensitive_witness :
    ([cA, cB] : List Contribution).Perm [cB, cA] ∧
    aggregate 1 gEx [cA, cB] = aggregate 1 gEx [cB, cA] :=
  ⟨List.Perm.swap cB cA [],
   c5_order_insensitive 1 gEx [cA, cB] [cB, cA] (List.Perm.swap cB cA [])⟩

/-- Contribution whose parameter shape is incompatible with `gEx` (an empty
parameter vector against a length-1 global vector). -/
def cBadShape : Contribution :=
  ⟨1, 1, [], some 1, none⟩

/-- Claim C6 (counterexample): with floor 1 and a single contribution whose
shape is incompatible with the global state, the contribution count is not
below the floor and yet `aggregate` does not return a new global state — it
fails with `AggregationFailure`.  This refutes the claim's clause that
whenever the count is not below the floor a new global state is returned. -/
theorem c6_counterexample :
    ¬ ([cBadShape] : List Contribution).length < 1 ∧
    aggregate 1 gEx [cBadShape] = .error .aggregationFailure := by
  constructor
  · decide
  · rfl

/-- Claim C6 (amended): `aggregate` fails with `InsufficientContributions`
iff strictly fewer contributions than the strategy's floor are present;
otherwise, if some contribution's parameter shape is incompatible with the
current global state it fails with `AggregationFailure`, and if all shapes
are compatible it returns the new weighted-average global state. -/
theorem c6_insufficient_iff (floor : Nat) (g : GlobalModelState)
    (cs : List Contribution) :
    (aggregate floor g cs = .error .insufficientContributions ↔
        cs.length < floor) ∧
    (¬ cs.length < floor → ¬ cs.all (shapeOk g) = true →
        aggregate floor g cs = .error .aggregationFailure) ∧
    (¬ cs.length < floor → cs.all (shapeOk g) = true →
        aggregate floor g cs =
          .ok ⟨weightedAverage cs g.params.length, g.version + 1⟩) := by
  unfold aggregate
  refine ⟨?_, ?_, ?_⟩
  · constructor
    · intro h
      by_contra hn
      rw [if_neg hn] at h
      by_cases hall : cs.all (shapeOk g) = true
      · rw [if_pos hall] at h
        exact Except.noConfusion h
      · rw [if_neg hall] at h
        exact AggError.noConfusion (Except.error.inj h)
    · intro h
      rw [if_pos h]
  · intro h hall
    rw [if_neg h, if_neg hall]
  · intro h hall
    rw [if_neg h, if_pos hall]

theorem c6_insufficient_iff_witness :
    ¬ ([cA] : List Contribution).length < 1 ∧
    ([cA] : List Contribution).all (shapeOk gEx) = true ∧
    aggregate 1 gEx [cA] =
      .ok ⟨weightedAverage [cA] gEx.params.length, gEx.version + 1⟩ :=
  ⟨by decide, by decide,
   (c6_insufficient_iff 1 gEx [cA]).2.2 (by decide) (by decide)⟩

/-- Modelled from the spec: round scheduler states.  `AGGREGATING` is a
transient state handled synchronously inside the triggering event, per the
spec's "hands the closed contribution set to the Aggregator synchronously". -/
inductive RoundState where
  | admitting
  | dispatched
  | collecting
  | validating
  | closed
  | aborted
  deriving Repr, DecidableEq

/-- Modelled from the spec: a ValidationReport aggregates per-node
validation metrics for a round into per-key averages. -/
structure ValidationReport where
  avgMetrics : List (String × ℚ)
  deriving Repr, DecidableEq

/-- Modelled from the spec: one training-aggregation cycle, with sequence
number, state, admitted node set, collected contributions, the pending
aggregated parameters while validation runs, and the produced report. -/
structure Round where
  seq : Nat
  rstate : RoundState
  admitted : List Nat
  contribs : List Contribution
  pending : Option Params
  report : Option ValidationReport
  deriving Repr, DecidableEq

/-- Modelled from the spec: a fresh round in the admission phase. -/
def Round.fresh (seq : Nat) : Round :=
  ⟨seq, .admitting, [], [], none, none⟩

/-- Modelled from the spec: coordinator configuration — admission quorum
bounds, the aggregation strategy's floor, the validation interval and the
total round count. -/
structure Config where
  min_clients : Nat
  max_clients : Nat
  floor : Nat
  validate_interval : Nat
  max_rounds : Nat
  deriving Repr, DecidableEq

/-- Modelled from the spec: the task session's coordinator state — the
global model state it owns, the number of completed rounds, and the round
currently owned by the round scheduler. -/
structure Coord where
  global : GlobalModelState
  completed : Nat
  round : Round
  deriving Repr, DecidableEq

/-- Modelled from the spec: initial coordinator state at version 0, about
to run round 1. -/
def initCoord (ps : Params) : Coord :=
  ⟨⟨ps, 0⟩, 0, Round.fresh 1⟩

/-- Average of a list of rationals. -/
def avgOf (l : List ℚ) : ℚ :=
  l.sum / (l.length : ℚ)

/-- Metric keys occurring in a list of per-node metric maps. -/
def metricKeys (ms : List (List (String × ℚ))) : List String :=
  ((ms.map (fun m => m.map Prod.fst)).flatten).dedup

/-- Values reported for one metric key across per-node metric maps. -/
def metricValues (k : String) (ms : List (List (String × ℚ))) : List ℚ :=
  ms.filterMap (fun m => (m.find? (fun p => p.1 == k)).map Prod.snd)

/-- Modelled from the spec: averages the per-node validation metrics of a
round's contributions into a ValidationReport. -/
def mkReport (cs : List Contribution) : ValidationReport :=
  ⟨(metricKeys (cs.filterMap (fun c => c.metrics))).map
      (fun k => (k, avgOf (metricValues k (cs.filterMap (fun c => c.metrics)))))⟩

/-- Modelled from the spec: at most one contribution per (node, round) is
kept — a resubmission overwrites the prior value while the round is open. -/
def upsertContrib (cs : List Contribution) (c : Contribution) : List Contribution :=
  if cs.any (fun d => d.node == c.node) then
    cs.map (fun d => if d.node == c.node then c else d)
  else
    cs ++ [c]

/-- Modelled from the spec: whether every admitted node has contributed. -/
def allContributed (r : Round) : Bool :=
  r.admitted.all (fun n => r.contribs.any (fun d => d.node == n))

/-- Modelled from the spec: closing a round persists the aggregated
parameters with the version advanced by exactly one, counts the round as
completed, and attaches the optional ValidationReport. -/
def closeRound (s : Coord) (ps : Params) (rep : Option ValidationReport) : Coord :=
  { global := ⟨ps, s.global.version + 1⟩,
    completed := s.completed + 1,
    round := { s.round with rstate := .closed, pending := none, report := rep } }

/-- Modelled from the spec: hand the contribution set to the aggregator;
on failure the round aborts and the prior global state is untouched; on
success the round validates (when the sequence number matches the
validation interval) or closes directly. -/
def tryAggregate (cfg : Config) (s : Coord) : Coord :=
  match aggregate cfg.floor s.global s.round.contribs with
  | .error _ => { s with round := { s.round with rstate := .aborted } }
  | .ok g' =>
      if s.round.seq % cfg.validate_interval = 0 then
        { s with round := { s.round with rstate := .validating, pending := some g'.params } }
      else
        closeRound s g'.params none

/-- Modelled from the spec: the observable events driving one round —
node admission, the admission deadline, dispatch completion, contribution
submission, the collection deadline, validation completion, and the task
session advancing (or retrying) the round. -/
inductive Event where
  | join (n : Nat)
  | admissionTimeout
  | dispatchDone
  | submit (c : Contribution)
  | collectionTimeout
  | validationDone
  | nextRound
  deriving Repr, DecidableEq

/-- Modelled from the spec: the round scheduler / task session transition
function.  Joins are accepted in arrival order up to `max_clients` during
admission only; the round dispatches as soon as quorum is reached;
contributions are accepted from admitted nodes tagged with the current
round number while collecting; aggregation triggers when all admitted nodes
contributed or on the collection deadline with at least the floor present;
a closed round advances to the next sequence number and an aborted round is
retried under the same sequence number. -/
def step (cfg : Config) (s : Coord) (e : Event) : Coord :=
  match e with
  | .join n =>
      if s.round.rstate = .admitting ∧ n ∉ s.round.admitted ∧
          s.round.admitted.length < cfg.max_clients then
        if cfg.min_clients ≤ s.round.admitted.length + 1 then
          { s with round := { s.round with admitted := s.round.admitted ++ [n], rstate := .dispatched } }
        else
          { s with round := { s.round with admitted := s.round.admitted ++ [n] } }
      else s
  | .admissionTimeout =>
      if s.round.rstate = .admitting then
        if cfg.min_clients ≤ s.round.admitted.length then
          { s with round := { s.round with rstate := .dispatched } }
        else
          { s with round := { s.round with rstate := .aborted } }
      else s
  | .dispatchDone =>
      if s.round.rstate = .dispatched then
        { s with round := { s.round with rstate := .collecting } }
      else s
  | .submit c =>
      if s.round.rstate = .collecting ∧ c.node ∈ s.round.admitted ∧
          c.roundNum = s.round.seq then
        if allContributed { s.round with contribs := upsertContrib s.round.contribs c } then
          tryAggregate cfg
            { s with round := { s.round with contribs := upsertContrib s.round.contribs c } }
        else
          { s with round := { s.round with contribs := upsertContrib s.round.contribs c } }
      else s
  | .collectionTimeout =>
      if s.round.rstate = .collecting then
        if cfg.floor ≤ s.round.contribs.length then
          tryAggregate cfg s
        else
          { s with round := { s.round with rstate := .aborted } }
      else s
  | .validationDone =>
      if s.round.rstate = .validating then
        closeRound s (s.round.pending.getD s.global.params)
          (some (mkReport s.round.contribs))
      else s
  | .nextRound =>
      if s.round.rstate = .closed then
        if s.round.seq < cfg.max_rounds then
          { s with round := Round.fresh (s.round.seq + 1) }
        else s
      else if s.round.rstate = .aborted then
        { s with round := Round.fresh s.round.seq }
      else s

/-- Run the coordinator from a state through a list of events. -/
def run (cfg : Config) (s : Coord) (es : List Event) : Coord :=
  es.foldl (step cfg) s

/-- States at or after training dispatch (excluding aborted rounds). -/
def afterDispatch : RoundState → Bool
  | .dispatched => true
  | .collecting => true
  | .validating => true
  | .closed => true
  | _ => false

/-- The coordinator invariant: version counts completed rounds, the
admitted set is capped by `max_clients`, quorum holds from dispatch on,
validation only runs when the sequence number matches the interval, and a
closed round carries a report exactly when its sequence number matches the
interval. -/
structure CoordInv (cfg : Config) (s : Coord) : Prop where
  ver : s.global.version = s.completed
  cap : s.round.admitted.length ≤ cfg.max_clients
  quorum : afterDispatch s.round.rstate = true →
    cfg.min_clients ≤ s.round.admitted.length
  vmatch : s.round.rstate = .validating →
    s.round.seq % cfg.validate_interval = 0
  creport : s.round.rstate = .closed →
    (s.round.report.isSome = true ↔ s.round.seq % cfg.validate_interval = 0)

lemma inv_init (cfg : Config) (ps : Params) : CoordInv cfg (initCoord ps) := by
  refine ⟨rfl, Nat.zero_le _, ?_, ?_, ?_⟩ <;>
    (intro hx; simp [initCoord, Round.fresh, afterDispatch] at hx)

lemma tryAggregate_error (cfg : Config) (s : Coord) (err : AggError)
    (h : aggregate cfg.floor s.global s.round.contribs = .error err) :
    tryAggregate cfg s = { s with round := { s.round with rstate := .aborted } } := by
  unfold tryAggregate
  rw [h]

lemma tryAggregate_ok_validate (cfg : Config) (s : Coord) (g' : GlobalModelState)
    (h : aggregate cfg.floor s.global s.round.contribs = .ok g')
    (hvi : s.round.seq % cfg.validate_interval = 0) :
    tryAggregate cfg s =
      { s with round := { s.round with rstate := .validating, pending := some g'.params } } := by
  unfold tryAggregate
  rw [h]
  dsimp only
  rw [if_pos hvi]

lemma tryAggregate_ok_close (cfg : Config) (s : Coord) (g' : GlobalModelState)
    (h : aggregate cfg.floor s.global s.round.contribs = .ok g')
    (hvi : ¬ s.round.seq % cfg.validate_interval = 0) :
    tryAggregate cfg s = closeRound s g'.params none := by
  unfold tryAggregate
  rw [h]
  dsimp only
  rw [if_neg hvi]

lemma inv_closeRound (cfg : Config) (s : Coord) (ps : Params)
    (rep : Option ValidationReport) (h : CoordInv cfg s)
    (hq : cfg.min_clients ≤ s.round.admitted.length)
    (hrep : rep.isSome = true ↔ s.round.seq % cfg.validate_interval = 0) :
    CoordInv cfg (closeRound s ps rep) := by
  refine ⟨?_, ?_, ?_, ?_, ?_⟩
  · simp [closeRound, h.ver]
  · simpa [closeRound] using h.cap
  · intro _
    simpa [closeRound] using hq
  · intro hx
    simp [closeRound] at hx
  · intro _
    simpa [closeRound] using hrep

lemma inv_tryAggregate (cfg : Config) (s : Coord) (h : CoordInv cfg s)
    (hq : cfg.min_clients ≤ s.round.admitted.length) :
    CoordInv cfg (tryAggregate cfg s) := by
  cases hagg : aggregate cfg.floor s.global s.round.contribs with
  | error err =>
      rw [tryAggregate_error cfg s err hagg]
      refine ⟨h.ver, by simpa using h.cap, ?_, ?_, ?_⟩ <;>
        (intro hx; simp [afterDispatch] at hx)
  | ok g' =>
      by_cases hvi : s.round.seq % cfg.validate_interval = 0
      · rw [tryAggregate_ok_validate cfg s g' hagg hvi]
        refine ⟨h.ver, by simpa using h.cap, ?_, ?_, ?_⟩
        · intro _
          simpa using hq
        · intro _
          simpa using hvi
        · intro hx
          simp at hx
      · rw [tryAggregate_ok_close cfg s g' hagg hvi]
        exact inv_closeRound cfg s g'.params none h hq (by simpa using hvi)

lemma inv_step (cfg : Config) (s : Coord) (e : Event) (h : CoordInv cfg s) :
    CoordInv cfg (step cfg s e) := by
  cases e with
  | join n =>
      dsimp only [step]
      split_ifs with h1 h2
      · obtain ⟨hadm, hnew, hlt⟩ := h1
        refine ⟨h.ver, ?_, ?_, ?_, ?_⟩
        · simp only [List.length_append, List.length_cons, List.length_nil]
          omega
        · intro _
          simpa [List.length_append] using h2
        · intro hx
          simp at hx
        · intro hx
          simp at hx
      · obtain ⟨hadm, hnew, hlt⟩ := h1
        refine ⟨h.ver, ?_, ?_, ?_, ?_⟩
        · simp only [List.length_append, List.length_cons, List.length_nil]
          omega
        · intro hx
          rw [hadm] at hx
          simp [afterDispatch] at hx
        · intro hx
          rw [hadm] at hx
          simp at hx
        · intro hx
          rw [hadm] at hx
          simp at hx
      · exact h
  | admissionTimeout =>
      dsimp only [step]
      split_ifs with h1 h2
      · refine ⟨h.ver, by simpa using h.cap, ?_, ?_, ?_⟩
        · intro _
          simpa using h2
        · intro hx
          simp at hx
        · intro hx
          simp at hx
      · refine ⟨h.ver, by simpa using h.cap, ?_, ?_, ?_⟩ <;>
          (intro hx; simp [afterDispatch] at hx)
      · exact h
  | dispatchDone =>
      dsimp only [step]
      split_ifs with h1
      · refine ⟨h.ver, by simpa using h.cap, ?_, ?_, ?_⟩
        · intro _
          have := h.quorum (by rw [h1]; rfl)
          simpa using this
        · intro hx
          simp at hx
        · intro hx
          simp at hx
      · exact h
  | submit c =>
      dsimp only [step]
      split_ifs with h1 h2
      · obtain ⟨hcol, hmem, htag⟩ := h1
        have hq : cfg.min_clients ≤ s.round.admitted.length :=
          h.quorum (by rw [hcol]; rfl)
        refine inv_tryAggregate cfg _ ?_ (by simpa using hq)
        refine ⟨h.ver, by simpa using h.cap, ?_, ?_, ?_⟩
        · intro _
          simpa using hq
        · intro hx
          rw [show ({ s with round := { s.round with contribs := upsertContrib s.round.contribs c } } : Coord).round.rstate = s.round.rstate from rfl, hcol] at hx
          simp at hx
        · intro hx
          rw [show ({ s with round := { s.round with contribs := upsertContrib s.round.contribs c } } : Coord).round.rstate = s.round.rstate from rfl, hcol] at hx
          simp at hx
      · obtain ⟨hcol, hmem, htag⟩ := h1
        refine ⟨h.ver, by simpa using h.cap, ?_, ?_, ?_⟩
        · intro _
          exact h.quorum (by rw [hcol]; rfl)
        · intro hx
          rw [show ({ s with round := { s.round with contribs := upsertContrib s.round.contribs c } } : Coord).round.rstate = s.round.rstate from rfl, hcol] at hx
          simp at hx
        · intro hx
          rw [show ({ s with round := { s.round with contribs := upsertContrib s.round.contribs c } } : Coord).round.rstate = s.round.rstate from rfl, hcol] at hx
          simp at hx
      · exact h
  | collectionTimeout =>
      dsimp only [step]
      split_ifs with h1 h2
      · exact inv_tryAggregate cfg s h (h.quorum (by rw [h1]; rfl))
      · refine ⟨h.ver, by simpa using h.cap, ?_, ?_, ?_⟩ <;>
          (intro hx; simp [afterDispatch] at hx)
      · exact h
  | validationDone =>
      dsimp only [step]
      split_ifs with h1
      · exact inv_closeRound cfg s _ _ h (h.quorum (by rw [h1]; rfl))
          (by simpa using h.vmatch h1)
      · exact h
  | nextRound =>
      dsimp only [step]
      split_ifs with h1 h2 h3
      · refine ⟨h.ver, Nat.zero_le _, ?_, ?_, ?_⟩ <;>
          (intro hx; simp [Round.fresh, afterDispatch] at hx)
      · exact h
      · refine ⟨h.ver, Nat.zero_le _, ?_, ?_, ?_⟩ <;>
          (intro hx; simp [Round.fresh, afterDispatch] at hx)
      · exact h

lemma inv_run (cfg : Config) (s : Coord) (es : List Event) (h : CoordInv cfg s) :
    CoordInv cfg (run cfg s es) := by
  induction es generalizing s with
  | nil => exact h
  | cons e es ih => exact ih (step cfg s e) (inv_step cfg s e h)

lemma tryAggregate_admitted (cfg : Config) (s : Coord) :
    (tryAggregate cfg s).round.admitted = s.round.admitted := by
  cases hagg : aggregate cfg.floor s.global s.round.contribs with
  | error err => rw [tryAggregate_error cfg s err hagg]
  | ok g' =>
      by_cases hvi : s.round.seq % cfg.validate_interval = 0
      · rw [tryAggregate_ok_validate cfg s g' hagg hvi]
      · rw [tryAggregate_ok_close cfg s g' hagg hvi]
        simp [closeRound]

lemma admitted_step (cfg : Config) (s : Coord) (e : Event)
    (hs : s.round.rstate ≠ .admitting) (he : e ≠ .nextRound) :
    (step cfg s e).round.admitted = s.round.admitted := by
  cases e with
  | join n =>
      dsimp only [step]
      rw [if_neg (fun hc => hs hc.1)]
  | admissionTimeout =>
      dsimp only [step]
      rw [if_neg hs]
  | dispatchDone =>
      dsimp only [step]
      split_ifs <;> rfl
  | submit c =>
      dsimp only [step]
      split_ifs with h1 h2
      · rw [tryAggregate_admitted]
      · rfl
      · rfl
  | collectionTimeout =>
      dsimp only [step]
      split_ifs with h1 h2
      · rw [tryAggregate_admitted]
      · rfl
      · rfl
  | validationDone =>
      dsimp only [step]
      split_ifs <;> rfl
  | nextRound => exact absurd rfl he

lemma tryAggregate_version (cfg : Config) (s : Coord) :
    ((tryAggregate cfg s).global = s.global ∧
        (tryAggregate cfg s).round.rstate ≠ .closed) ∨
    ((tryAggregate cfg s).global.version = s.global.version + 1 ∧
        (tryAggregate cfg s).round.rstate = .closed) := by
  cases hagg : aggregate cfg.floor s.global s.round.contribs with
  | error err =>
      left
      rw [tryAggregate_error cfg s err hagg]
      exact ⟨rfl, by simp⟩
  | ok g' =>
      by_cases hvi : s.round.seq % cfg.validate_interval = 0
      · left
        rw [tryAggregate_ok_validate cfg s g' hagg hvi]
        exact ⟨rfl, by simp⟩
      · right
        rw [tryAggregate_ok_close cfg s g' hagg hvi]
        exact ⟨rfl, rfl⟩

lemma version_step (cfg : Config) (s : Coord) (e : Event) :
    ((step cfg s e).global = s.global ∧
        ((step cfg s e).round.rstate = .closed → s.round.rstate = .closed)) ∨
    ((step cfg s e).global.version = s.global.version + 1 ∧
        (step cfg s e).round.rstate = .closed ∧ s.round.rstate ≠ .closed) := by
  cases e with
  | join n =>
      dsimp only [step]
      split_ifs with h1 h2
      · exact Or.inl ⟨rfl, fun hx => by simp at hx⟩
      · exact Or.inl ⟨rfl, fun hx => hx⟩
      · exact Or.inl ⟨rfl, fun hx => hx⟩
  | admissionTimeout =>
      dsimp only [step]
      split_ifs with h1 h2
      · exact Or.inl ⟨rfl, fun hx => by simp at hx⟩
      · exact Or.inl ⟨rfl, fun hx => by simp at hx⟩
      · exact Or.inl ⟨rfl, fun hx => hx⟩
  | dispatchDone =>
      dsimp only [step]
      split_ifs with h1
      · exact Or.inl ⟨rfl, fun hx => by simp at hx⟩
      · exact Or.inl ⟨rfl, fun hx => hx⟩
  | submit c =>
      dsimp only [step]
      split_ifs with h1 h2
      · rcases tryAggregate_version cfg
          { s with round := { s.round with contribs := upsertContrib s.round.contribs c } } with
          ⟨hg, hc⟩ | ⟨hg, hc⟩
        · exact Or.inl ⟨hg, fun hx => absurd hx hc⟩
        · refine Or.inr ⟨hg, hc, ?_⟩
          rw [h1.1]
          simp
      · exact Or.inl ⟨rfl, fun hx => hx⟩
      · exact Or.inl ⟨rfl, fun hx => hx⟩
  | collectionTimeout =>
      dsimp only [step]
      split_ifs with h1 h2
      · rcases tryAggregate_version cfg s with ⟨hg, hc⟩ | ⟨hg, hc⟩
        · exact Or.inl ⟨hg, fun hx => absurd hx hc⟩
        · refine Or.inr ⟨hg, hc, ?_⟩
          rw [h1]
          simp
      · exact Or.inl ⟨rfl, fun hx => by simp at hx⟩
      · exact Or.inl ⟨rfl, fun hx => hx⟩
  | validationDone =>
      dsimp only [step]
      split_ifs with h1
      · refine Or.inr ⟨rfl, rfl, ?_⟩
        rw [h1]
        simp
      · exact Or.inl ⟨rfl, fun hx => hx⟩
  | nextRound =>
      dsimp only [step]
      split_ifs with h1 h2 h3
      · exact Or.inl ⟨rfl, fun hx => by simp [Round.fresh] at hx⟩
      · exact Or.inl ⟨rfl, fun hx => hx⟩
      · exact Or.inl ⟨rfl, fun hx => by simp [Round.fresh] at hx⟩
      · exact Or.inl ⟨rfl, fun hx => hx⟩

/-- Claim C2: the global model version always equals the number of
completed rounds (so after N completed rounds it equals N), no coordinator
event ever decreases it, and a step that closes a round increases it by
exactly 1. -/
theorem c2_version_tracks_completed (cfg : Config) (ps : Params) (es : List Event) :
    (run cfg (initCoord ps) es).global.version =
      (run cfg (initCoord ps) es).completed ∧
    ∀ e : Event,
      (run cfg (initCoord ps) es).global.version ≤
        (step cfg (run cfg (initCoord ps) es) e).global.version ∧
      ((step cfg (run cfg (initCoord ps) es) e).round.rstate = .closed →
        (run cfg (initCoord ps) es).round.rstate ≠ .closed →
        (step cfg (run cfg (initCoord ps) es) e).global.version =
          (run cfg (initCoord ps) es).global.version + 1) := by
  refine ⟨(inv_run cfg _ es (inv_init cfg ps)).ver, ?_⟩
  intro e
  rcases version_step cfg (run cfg (initCoord ps) es) e with ⟨hg, hc⟩ | ⟨hg, hc, hnc⟩
  · constructor
    · rw [hg]
    · intro hcl hncl
      exact absurd (hc hcl) hncl
  · constructor
    · omega
    · intro _ _
      exact hg

/-- Claim C3: whenever a reachable round is at or after dispatch, its
admitted set satisfies `min_clients ≤ |admitted| ≤ max_clients`, and once a
round has left the admission phase no event of that round's lifetime (only
the task session replacing the round) changes its admitted set. -/
theorem c3_quorum_and_fixed_admission (cfg : Config) (ps : Params) (es : List Event) :
    (afterDispatch (run cfg (initCoord ps) es).round.rstate = true →
      cfg.min_clients ≤ (run cfg (initCoord ps) es).round.admitted.length ∧
      (run cfg (initCoord ps) es).round.admitted.length ≤ cfg.max_clients) ∧
    ∀ e : Event, (run cfg (initCoord ps) es).round.rstate ≠ .admitting →
      e ≠ .nextRound →
      (step cfg (run cfg (initCoord ps) es) e).round.admitted =
        (run cfg (initCoord ps) es).round.admitted := by
  have h := inv_run cfg _ es (inv_init cfg ps)
  refine ⟨fun hd => ⟨h.quorum hd, h.cap⟩, ?_⟩
  intro e hs he
  exact admitted_step cfg _ e hs he

/-- Claim C4: a contribution submitted after its round has closed is
rejected and changes nothing — in particular GlobalModelState — and an
aggregation failure aborts the round while leaving the prior
GlobalModelState exactly as it was. -/
theorem c4_failures_preserve_global (cfg : Config) (s : Coord) :
    (∀ c : Contribution, s.round.rstate = .closed →
      step cfg s (.submit c) = s) ∧
    (∀ err : AggError,
      aggregate cfg.floor s.global s.round.contribs = .error err →
      (tryAggregate cfg s).global = s.global ∧
      (tryAggregate cfg s).round.rstate = .aborted) := by
  constructor
  · intro c hc
    dsimp only [step]
    have hng : ¬(s.round.rstate = .collecting ∧ c.node ∈ s.round.admitted ∧
        c.roundNum = s.round.seq) := by
      intro hcon
      rw [hc] at hcon
      simp at hcon
    rw [if_neg hng]
  · intro err herr
    rw [tryAggregate_error cfg s err herr]
    exact ⟨rfl, rfl⟩

/-- Claim C7: a closed round carries a ValidationReport exactly when its
sequence number matches the configured validation interval; with interval 1
every closed round carries one, and with interval 2 exactly the
even-numbered closed rounds do. -/
theorem c7_validation_report_interval (cfg : Config) (ps : Params) (es : List Event) :
    ((run cfg (initCoord ps) es).round.rstate = .closed →
      ((run cfg (initCoord ps) es).round.report.isSome = true ↔
        (run cfg (initCoord ps) es).round.seq % cfg.validate_interval = 0)) ∧
    (cfg.validate_interval = 1 →
      (run cfg (initCoord ps) es).round.rstate = .closed →
      (run cfg (initCoord ps) es).round.report.isSome = true) ∧
    (cfg.validate_interval = 2 →
      (run cfg (initCoord ps) es).round.rstate = .closed →
      ((run cfg (initCoord ps) es).round.report.isSome = true ↔
        (run cfg (initCoord ps) es).round.seq % 2 = 0)) := by
  have h := inv_run cfg _ es (inv_init cfg ps)
  refine ⟨h.creport, ?_, ?_⟩
  · intro h1 hcl
    exact (h.creport hcl).mpr (by rw [h1]; exact Nat.mod_one _)
  · intro h2 hcl
    have hiff := h.creport hcl
    rw [h2] at hiff
    exact hiff

/-- Concrete configuration used by the coordinator witnesses: quorum 1–2,
aggregation floor 1, validation every round, 3 rounds total. -/
def cfgW : Config :=
  ⟨1, 2, 1, 1, 3⟩

/-- Concrete contribution submitted by node 1 for round 1. -/
def cW : Contribution :=
  ⟨1, 1, [], some 1, none⟩

/-- Concrete event trace: node 1 joins (the round dispatches), dispatch
completes, node 1 contributes (aggregation succeeds, validation starts). -/
def esW : List Event :=
  [.join 1, .dispatchDone, .submit cW]

/-- Concrete event trace closing round 1 after validation. -/
def esC : List Event :=
  [.join 1, .dispatchDone, .submit cW, .validationDone]

theorem c2_version_tracks_completed_witness :
    (run cfgW (initCoord []) esW).global.version =
      (run cfgW (initCoord []) esW).completed ∧
    (step cfgW (run cfgW (initCoord []) esW) .validationDone).round.rstate = .closed ∧
    (run cfgW (initCoord []) esW).round.rstate ≠ .closed ∧
    (step cfgW (run cfgW (initCoord []) esW) .validationDone).global.version =
      (run cfgW (initCoord []) esW).global.version + 1 := by
  refine ⟨(c2_version_tracks_completed cfgW [] esW).1, by decide, by decide, ?_⟩
  exact ((c2_version_tracks_completed cfgW [] esW).2 .validationDone).2
    (by decide) (by decide)

theorem c3_quorum_and_fixed_admission_witness :
    afterDispatch (run cfgW (initCoord []) esW).round.rstate = true ∧
    cfgW.min_clients ≤ (run cfgW (initCoord []) esW).round.admitted.length ∧
    (run cfgW (initCoord []) esW).round.admitted.length ≤ cfgW.max_clients ∧
    (run cfgW (initCoord []) esW).round.rstate ≠ .admitting ∧
    (Event.validationDone ≠ Event.nextRound) ∧
    (step cfgW (run cfgW (initCoord []) esW) .validationDone).round.admitted =
      (run cfgW (initCoord []) esW).round.admitted := by
  have h := c3_quorum_and_fixed_admission cfgW [] esW
  exact ⟨by decide, (h.1 (by decide)).1, (h.1 (by decide)).2, by decide, by decide,
    h.2 .validationDone (by decide) (by decide)⟩

/-- Concrete coordinator state with a closed round and no contributions. -/
def sBad : Coord :=
  ⟨⟨[], 0⟩, 0, ⟨1, .closed, [], [], none, none⟩⟩

theorem c4_failures_preserve_global_witness :
    sBad.round.rstate = .closed ∧
    step cfgW sBad (.submit cW) = sBad ∧
    aggregate cfgW.floor sBad.global sBad.round.contribs =
      .error .insufficientContributions ∧
    (tryAggregate cfgW sBad).global = sBad.global ∧
    (tryAggregate cfgW sBad).round.rstate = .aborted := by
  have h := c4_failures_preserve_global cfgW sBad
  exact ⟨rfl, h.1 cW rfl, rfl,
    (h.2 .insufficientContributions rfl).1,
    (h.2 .insufficientContributions rfl).2⟩

theorem c7_validation_report_interval_witness :
    cfgW.validate_interval = 1 ∧
    (run cfgW (initCoord []) esC).round.rstate = .closed ∧
    (run cfgW (initCoord []) esC).round.report.isSome = true := by
  refine ⟨rfl, by decide, ?_⟩
  exact (c7_validation_report_interval cfgW [] esC).2.1 rfl (by decide)

/-- The FedAvg aggregation strategy configuration object, with the fields
the notebook passes to `FedAvg(...)`. -/
structure FedAvg where
  merge_interval_epoch : Nat
  merge_interval_iter : Nat
  wait_timeout : Nat
  connection_timeout : Nat
  min_clients : Nat
  max_clients : Nat
  deriving Repr, DecidableEq

/-- Configuration validation error. -/
inductive ConfigError where
  | invalidMergeInterval
  deriving Repr, DecidableEq

/-- Modelled from the spec: the coordinator validates the aggregation
strategy configuration at task-session construction — exactly one of
`merge_interval_epoch` and `merge_interval_iter` must be zero, and a
configuration in which both or neither are zero is rejected as invalid
rather than silently accepted. -/
def acceptAlgorithm (a : FedAvg) : Except ConfigError FedAvg :=
  if (a.merge_interval_epoch == 0) != (a.merge_interval_iter == 0) then
    .ok a
  else
    .error .invalidMergeInterval

namespace ExampleTask

/-- `ExampleTask.algorithm` from the notebook: `FedAvg` with epoch interval
0, iteration interval 20, both timeouts 20, and 2–2 clients. -/
def algorithm : FedAvg :=
  ⟨0, 20, 20, 20, 2, 2⟩

/-- One pixel through `ExampleTask.preprocess`:
`x /= 255.0; x *= 2; x -= 1`. -/
def preprocessPixel (v : ℚ) : ℚ :=
  (v / 255) * 2 - 1

/-- `x.reshape((1, 28, 28))`: row-major reshape of a flat 784-element
sample into shape (1, 28, 28). -/
def reshape_1_28_28 (xs : List ℚ) : List (List (List ℚ)) :=
  [(List.range 28).map (fun i => (List.range 28).map (fun j => xs.getD (28 * i + j) 0))]

/-- `ExampleTask.preprocess`: scales every pixel, reshapes to (1, 28, 28)
and returns the tensor together with the label as a (long) integer. -/
def preprocess (xs : List ℚ) (y : Int) : List (List (List ℚ)) × Int :=
  (reshape_1_28_28 (xs.map preprocessPixel), y)

/-- `torch.argmax` over a score vector: the index of the maximum (the first
one on ties, since the fold only moves on a strictly greater score). -/
def argmaxIdx (l : List ℚ) : Nat :=
  (List.range l.length).foldl (fun best j => if l.getD best 0 < l.getD j 0 then j else best) 0

/-- Labels collected batch by batch (`ys.extend(y.tolist())`). -/
def labels {α : Type} (batches : List (List (α × Int))) : List Int :=
  (batches.map (fun b => b.map Prod.snd)).flatten

/-- Predicted classes collected batch by batch
(`y_s.extend(torch.argmax(y_pred, dim=1).tolist())`). -/
def predictions {α : Type} (model : α → List ℚ)
    (batches : List (List (α × Int))) : List Nat :=
  (batches.map (fun b => b.map (fun s => argmaxIdx (model s.1)))).flatten

/-- `tp = len([1 for i in range(len(ys)) if ys[i] == y_s[i]])`. -/
def truePositives {α : Type} (model : α → List ℚ)
    (batches : List (List (α × Int))) : Nat :=
  (((labels batches).zip (predictions model batches)).filter
      (fun p => p.1 == (p.2 : Int))).length

/-- `total_loss` accumulated per batch through the loss function. -/
def totalLoss {α : Type} (model : α → List ℚ)
    (lossF : List (List ℚ) → List Int → ℚ)
    (batches : List (List (α × Int))) : ℚ :=
  (batches.map (fun b => lossF (b.map (fun s => model s.1)) (b.map Prod.snd))).sum

/-- `ExampleTask.validate`: average loss over the batch count and precision
over the sample count.  The source divides by `count` and by `len(ys)`
without any guard; a dataloader yielding no batch or no sample divides by
zero, modelled here as `none`. -/
def validate {α : Type} (model : α → List ℚ)
    (lossF : List (List ℚ) → List Int → ℚ)
    (batches : List (List (α × Int))) : Option (List (String × ℚ)) :=
  if batches.length = 0 ∨ (labels batches).length = 0 then
    none
  else
    some [("loss", totalLoss model lossF batches / (batches.length : ℚ)),
          ("precision",
            (truePositives model batches : ℚ) / ((labels batches).length : ℚ))]

/-- Stated per the claim: the number of samples whose argmax prediction
equals the label, counted directly over the flattened sample sequence. -/
def correctCount {α : Type} (model : α → List ℚ)
    (batches : List (List (α × Int))) : Nat :=
  (batches.flatten.filter (fun s => s.2 == (argmaxIdx (model s.1) : Int))).length

lemma labels_eq_flatten_map {α : Type} (batches : List (List (α × Int))) :
    labels batches = batches.flatten.map Prod.snd := by
  unfold labels
  exact (List.map_flatten Prod.snd batches).symm

lemma predictions_eq_flatten_map {α : Type} (model : α → List ℚ)
    (batches : List (List (α × Int))) :
    predictions model batches =
      batches.flatten.map (fun s => argmaxIdx (model s.1)) := by
  unfold predictions
  exact (List.map_flatten _ batches).symm

lemma truePositives_eq_correctCount {α : Type} (model : α → List ℚ)
    (batches : List (List (α × Int))) :
    truePositives model batches = correctCount model batches := by
  unfold truePositives correctCount
  rw [labels_eq_flatten_map, predictions_eq_flatten_map,
    List.zip_map' Prod.snd (fun s => argmaxIdx (model s.1)) batches.flatten,
    List.filter_map, List.length_map]
  rfl

lemma labels_length {α : Type} (batches : List (List (α × Int))) :
    (labels batches).length = batches.flatten.length := by
  rw [labels_eq_flatten_map, List.length_map]

end ExampleTask

/-- Claim C8: a strategy configuration is accepted at task-session
construction exactly when exactly one of `merge_interval_epoch` and
`merge_interval_iter` is zero; both-zero or neither-zero configurations are
rejected as invalid; and the notebook's `ExampleTask.algorithm`
configuration (epoch 0, iteration 20) is accepted. -/
theorem c8_merge_interval_exclusive (a : FedAvg) :
    (acceptAlgorithm a = .ok a ↔
      ((a.merge_interval_epoch = 0 ∧ a.merge_interval_iter ≠ 0) ∨
        (a.merge_interval_epoch ≠ 0 ∧ a.merge_interval_iter = 0))) ∧
    (((a.merge_interval_epoch = 0 ∧ a.merge_interval_iter = 0) ∨
        (a.merge_interval_epoch ≠ 0 ∧ a.merge_interval_iter ≠ 0)) →
      acceptAlgorithm a = .error .invalidMergeInterval) ∧
    acceptAlgorithm ExampleTask.algorithm = .ok ExampleTask.algorithm := by
  refine ⟨?_, ?_, rfl⟩
  · by_cases e0 : a.merge_interval_epoch = 0 <;>
      by_cases i0 : a.merge_interval_iter = 0 <;>
      simp [acceptAlgorithm, e0, i0]
  · intro h
    rcases h with ⟨e0, i0⟩ | ⟨e0, i0⟩ <;> simp [acceptAlgorithm, e0, i0]

/-- A configuration with both merge intervals zero, used as witness input. -/
def fedAvgBothZero : FedAvg :=
  ⟨0, 0, 20, 20, 2, 2⟩

theorem c8_merge_interval_exclusive_witness :
    ((fedAvgBothZero.merge_interval_epoch = 0 ∧
        fedAvgBothZero.merge_interval_iter = 0) ∨
      (fedAvgBothZero.merge_interval_epoch ≠ 0 ∧
        fedAvgBothZero.merge_interval_iter ≠ 0)) ∧
    acceptAlgorithm fedAvgBothZero = .error .invalidMergeInterval :=
  ⟨Or.inl ⟨rfl, rfl⟩,
   (c8_merge_interval_exclusive fedAvgBothZero).2.1 (Or.inl ⟨rfl, rfl⟩)⟩

lemma getD_map_range_gen {α : Type} (d : α) (n j : Nat) (f : Nat → α)
    (h : j < n) : ((List.range n).map f).getD j d = f j := by
  simp [List.getD_eq_getElem?_getD, List.getElem?_map, List.getElem?_range, h]

lemma getD_map_lt (xs : List ℚ) (f : ℚ → ℚ) (k : Nat) (h : k < xs.length) :
    (xs.map f).getD k 0 = f (xs.getD k 0) := by
  have h' : k < (xs.map f).length := by simpa using h
  simp [List.getD_eq_getElem?_getD, List.getElem?_eq_getElem, h, h']

lemma getD_mem (xs : List ℚ) (k : Nat) (h : k < xs.length) : xs.getD k 0 ∈ xs := by
  have hg : xs[k]? = some xs[k] := List.getElem?_eq_getElem h
  simp [List.getD_eq_getElem?_getD, hg]

/-- Claim C9: for a 784-element sample with values in [0, 255] and an
integer label, `ExampleTask.preprocess` returns a tensor of shape
(1, 28, 28) whose entry at (0, i, j) equals `2 * x[28 * i + j] / 255 - 1`
(hence lies in [-1, 1]), together with the label as an integer. -/
theorem c9_preprocess_spec (xs : List ℚ) (y : Int) (hlen : xs.length = 784)
    (hrange : ∀ v ∈ xs, 0 ≤ v ∧ v ≤ 255) :
    (ExampleTask.preprocess xs y).1.length = 1 ∧
    (∀ plane ∈ (ExampleTask.preprocess xs y).1, plane.length = 28 ∧
      ∀ row ∈ plane, row.length = 28) ∧
    (∀ i j, i < 28 → j < 28 →
      ((((ExampleTask.preprocess xs y).1.getD 0 []).getD i []).getD j 0 =
          2 * xs.getD (28 * i + j) 0 / 255 - 1 ∧
        -1 ≤ (((ExampleTask.preprocess xs y).1.getD 0 []).getD i []).getD j 0 ∧
        (((ExampleTask.preprocess xs y).1.getD 0 []).getD i []).getD j 0 ≤ 1)) ∧
    (ExampleTask.preprocess xs y).2 = y := by
  refine ⟨rfl, ?_, ?_, rfl⟩
  · intro plane hp
    unfold ExampleTask.preprocess ExampleTask.reshape_1_28_28 at hp
    simp only [List.mem_singleton] at hp
    subst hp
    constructor
    · simp
    · intro row hr
      simp only [List.mem_map, List.mem_range] at hr
      obtain ⟨i, hi, rfl⟩ := hr
      simp
  · intro i j hi hj
    have hidx : 28 * i + j < xs.length := by omega
    have hentry :
        (((ExampleTask.preprocess xs y).1.getD 0 []).getD i []).getD j 0 =
          ExampleTask.preprocessPixel (xs.getD (28 * i + j) 0) := by
      have e1 : (ExampleTask.preprocess xs y).1.getD 0 [] =
          (List.range 28).map (fun a => (List.range 28).map
            (fun b => (xs.map ExampleTask.preprocessPixel).getD (28 * a + b) 0)) := rfl
      rw [e1, getD_map_range_gen ([] : List ℚ) 28 i _ hi,
        getD_map_range_gen (0 : ℚ) 28 j _ hj,
        getD_map_lt xs _ _ hidx]
    have hv := hrange (xs.getD (28 * i + j) 0) (getD_mem xs _ hidx)
    rw [hentry]
    unfold ExampleTask.preprocessPixel
    have hd0 : (0 : ℚ) ≤ xs.getD (28 * i + j) 0 / 255 :=
      div_nonneg hv.1 (by norm_num)
    have hd1 : xs.getD (28 * i + j) 0 / 255 ≤ 1 := by
      rw [div_le_one (by norm_num : (0 : ℚ) < 255)]
      exact hv.2
    refine ⟨by ring, by linarith, by linarith⟩

/-- A concrete all-51 MNIST-like sample for the preprocessing witness. -/
def sampleImage : List ℚ :=
  List.replicate 784 51

theorem c9_preprocess_spec_witness :
    sampleImage.length = 784 ∧
    (∀ v ∈ sampleImage, 0 ≤ v ∧ v ≤ 255) ∧
    (ExampleTask.preprocess sampleImage 7).2 = 7 ∧
    (((ExampleTask.preprocess sampleImage 7).1.getD 0 []).getD 0 []).getD 0 0 =
      2 * sampleImage.getD 0 0 / 255 - 1 := by
  have hlen : sampleImage.length = 784 := by
    rw [sampleImage, List.length_replicate]
  have hrange : ∀ v ∈ sampleImage, 0 ≤ v ∧ v ≤ 255 := by
    intro v hv
    simp only [sampleImage] at hv
    have := List.eq_of_mem_replicate hv
    subst this
    norm_num
  have h := c9_preprocess_spec sampleImage 7 hlen hrange
  exact ⟨hlen, hrange, h.2.2.2,
    (h.2.2.1 0 0 (by norm_num) (by norm_num)).1⟩

/-- Claim C10: `ExampleTask.validate` is only defined (returns a value)
when the dataloader yields at least one batch containing at least one
sample; in that case it returns exactly the keys "loss" and "precision",
with precision equal to the number of samples whose argmax prediction
equals the label divided by the total number of samples, a value in
[0, 1]. -/
theorem c10_validate_spec {α : Type} (model : α → List ℚ)
    (lossF : List (List ℚ) → List Int → ℚ)
    (batches : List (List (α × Int))) :
    (ExampleTask.validate model lossF batches = none ↔
      ∀ b ∈ batches, b = []) ∧
    ((∃ b ∈ batches, b ≠ []) →
      ExampleTask.validate model lossF batches =
        some [("loss",
                ExampleTask.totalLoss model lossF batches / (batches.length : ℚ)),
              ("precision",
                (ExampleTask.correctCount model batches : ℚ) /
                  (batches.flatten.length : ℚ))] ∧
      0 ≤ (ExampleTask.correctCount model batches : ℚ) /
          (batches.flatten.length : ℚ) ∧
      (ExampleTask.correctCount model batches : ℚ) /
          (batches.flatten.length : ℚ) ≤ 1) := by
  have hkey : (batches.length = 0 ∨ (ExampleTask.labels batches).length = 0) ↔
      ∀ b ∈ batches, b = [] := by
    constructor
    · rintro (h | h)
      · rw [List.length_eq_zero] at h
        subst h
        intro b hb
        simp at hb
      · rw [ExampleTask.labels_length, List.length_eq_zero] at h
        exact List.flatten_eq_nil_iff.mp h
    · intro h
      right
      rw [ExampleTask.labels_length, List.length_eq_zero]
      exact List.flatten_eq_nil_iff.mpr h
  constructor
  · unfold ExampleTask.validate
    split_ifs with hc
    · exact iff_of_true rfl (hkey.mp hc)
    · exact iff_of_false (by simp) (fun hall => hc (hkey.mpr hall))
  · rintro ⟨b, hb, hbne⟩
    have hnall : ¬ ∀ b ∈ batches, b = [] := fun h => hbne (h b hb)
    have hc : ¬ (batches.length = 0 ∨ (ExampleTask.labels batches).length = 0) :=
      fun h => hnall (hkey.mp h)
    have hflatpos : 0 < batches.flatten.length := by
      rcases Nat.eq_zero_or_pos batches.flatten.length with h0 | hpos
      · exact absurd ((List.flatten_eq_nil_iff.mp (List.length_eq_zero.mp h0)) b hb) hbne
      · exact hpos
    have hle : ExampleTask.correctCount model batches ≤ batches.flatten.length :=
      List.length_filter_le _ batches.flatten
    refine ⟨?_, ?_, ?_⟩
    · unfold ExampleTask.validate
      rw [if_neg hc, ExampleTask.truePositives_eq_correctCount,
        ExampleTask.labels_length]
    · exact div_nonneg (Nat.cast_nonneg _) (Nat.cast_nonneg _)
    · rw [div_le_one (by exact_mod_cast hflatpos)]
      exact_mod_cast hle

theorem c10_validate_spec_witness :
    (∃ b ∈ ([[((), (1 : Int))]] : List (List (Unit × Int))), b ≠ []) ∧
    ExampleTask.validate (fun _ : Unit => [(0 : ℚ), 1]) (fun _ _ => (1 : ℚ))
        [[((), (1 : Int))]] =
      some [("loss",
              ExampleTask.totalLoss (fun _ : Unit => [(0 : ℚ), 1])
                  (fun _ _ => (1 : ℚ)) [[((), (1 : Int))]] /
                (([[((), (1 : Int))]] : List (List (Unit × Int))).length : ℚ)),
            ("precision",
              (ExampleTask.correctCount (fun _ : Unit => [(0 : ℚ), 1])
                  [[((), (1 : Int))]] : ℚ) /
                (([[((), (1 : Int))]] : List (List (Unit × Int))).flatten.length : ℚ))] ∧
    0 ≤ (ExampleTask.correctCount (fun _ : Unit => [(0 : ℚ), 1])
          [[((), (1 : Int))]] : ℚ) /
        (([[((), (1 : Int))]] : List (List (Unit × Int))).flatten.length : ℚ) ∧
    (ExampleTask.correctCount (fun _ : Unit => [(0 : ℚ), 1])
          [[((), (1 : Int))]] : ℚ) /
        (([[((), (1 : Int))]] : List (List (Unit × Int))).flatten.length : ℚ) ≤ 1 := by
  have hex : ∃ b ∈ ([[((), (1 : Int))]] : List (List (Unit × Int))), b ≠ [] :=
    ⟨[((), 1)], by simp, by simp⟩
  have h := (c10_validate_spec (fun _ : Unit => [(0 : ℚ), 1])
    (fun _ _ => (1 : ℚ)) [[((), (1 : Int))]]).2 hex
  exact ⟨hex, h.1, h.2.1, h.2.2⟩
